import Mathlib

/-!
Verification of the agent/tool feedback-loop core of the kiya-002 repository.

The development shallowly embeds the Python sources:
  * `src/core/agent/stateless_agent_class.py` (`StatelessAgent`)
  * `src/core/workflow/workflow_class.py` (`Workflow`)
  * `src/core/llm/perplexity_llm.py`, `src/core/llm/gemini_llm.py`
    (`_ensure_json_response`, the response normalizer)

Python runtime values are modelled by the inductive type `Py` below; machine
behaviour such as `dict.get`, truthiness, `is False` identity tests and
subscript exceptions is modelled by explicit total functions.  Exceptions that
the Python code catches are modelled by `Option` results at the points where
they are caught.  The asynchronous model client and the bound tool are the
external collaborators of the spec; they enter the embedding as stub functions
indexed by the number of calls made so far, exactly the shape the spec's
testable properties quantify over.
-/

namespace Kiya

/-- A Python runtime value as the embedded code manipulates it: `None`,
`bool`, `int`, `str`, `list`, `dict` (a `dict` is a key-ordered association
list, keys assumed unique as for every dict the sources build).  Floats do not
occur in the modelled code paths and are not modelled. -/
inductive Py where
  | none
  | bool (b : Bool)
  | int (n : Int)
  | str (s : String)
  | list (xs : List Py)
  | dict (kvs : List (String × Py))
deriving Repr

/-- First-match association lookup, the model of Python dict key lookup
(source dicts have unique keys, so first match equals last match). -/
def lookupKey : List (String × Py) → String → Option Py
  | [], _ => Option.none
  | (k, v) :: rest, key => if k == key then some v else lookupKey rest key

/-- Whether a value is a Python dict (`isinstance(x, dict)` / `type(x) == dict`). -/
def Py.isDict : Py → Bool
  | .dict _ => true
  | _ => false

/-- Whether a value is Python `None` (`x is None`). -/
def Py.isNone : Py → Bool
  | .none => true
  | _ => false

/-- Model of `d.get(key, default)` on a dict; on a non-dict it is never
reached in the embedded code without a guard, and returns the default. -/
def pyGetD (p : Py) (key : String) (default : Py) : Py :=
  match p with
  | .dict kvs => (lookupKey kvs key).getD default
  | _ => default

/-- Model of `p[key]`: `some` value on a dict that has the key, `Option.none`
when Python would raise (`KeyError` on a missing key, `TypeError` on a
non-dict); the embedded callers catch those exceptions. -/
def pySubscript (p : Py) (key : String) : Option Py :=
  match p with
  | .dict kvs => lookupKey kvs key
  | _ => Option.none

/-- Model of `x is False`: true only for the actual `False` object. -/
def isExactlyFalse : Py → Bool
  | .bool false => true
  | _ => false

/-- Model of `x == s` for a string literal `s`: Python equality between an
arbitrary value and a `str` is true only when the value is that string. -/
def pyEqStr : Py → String → Bool
  | .str s, t => s == t
  | _, _ => false

/-- Python truthiness (`bool(x)`): `None`, `False`, `0`, the empty string
and empty containers are falsy, everything else truthy. -/
def pyTruthy : Py → Bool
  | .none => false
  | .bool b => b
  | .int n => n != 0
  | .str s => !s.isEmpty
  | .list xs => !xs.isEmpty
  | .dict kvs => !kvs.isEmpty

/-- Whether a value passes `isinstance(x, (str, int, float, bool, type(None)))`:
in this model everything that is not a list and not a dict. -/
def isPrimitive : Py → Bool
  | .list _ => false
  | .dict _ => false
  | _ => true

/-! ### A model of `json.dumps`

The spec's round-trip property `normalize(serialize(V)).value == V` quantifies
over an abstract serializer; the repository relies on the Python standard
library (`json.dumps` / `json.loads`).  `pyDumps` below models `json.dumps`
with its default separators (a comma-space between items, a colon-space
between a key and its value) and its escaping of the quote, the backslash and
the common control characters; other characters are emitted verbatim (the
`ensure_ascii` hex-escaping of non-ASCII text is not modelled, as no claim
depends on it). -/

/-- The decimal digit character for `d < 10`. -/
def digitChar (d : Nat) : Char := Char.ofNat (48 + d)

/-- Decimal digit characters of a natural number, most significant first. -/
def natChars (n : Nat) : List Char :=
  if n < 10 then [digitChar n]
  else natChars (n / 10) ++ [digitChar (n % 10)]
termination_by n
decreasing_by exact Nat.div_lt_self (by omega) (by omega)

/-- Decimal characters of an integer: an optional minus sign, then digits. -/
def intChars (i : Int) : List Char :=
  (if i < 0 then ['-'] else []) ++ natChars i.natAbs

/-- JSON escaping of one string character, as `json.dumps` emits it. -/
def jsonEscapeChar (c : Char) : List Char :=
  if c = '"' then ['\\', '"']
  else if c = '\\' then ['\\', '\\']
  else if c = '\n' then ['\\', 'n']
  else if c = '\t' then ['\\', 't']
  else if c = '\r' then ['\\', 'r']
  else [c]

/-- A JSON string literal: quote, escaped characters, quote. -/
def jsonStrChars (s : String) : List Char :=
  '"' :: (s.data.flatMap jsonEscapeChar ++ ['"'])

mutual
/-- Characters of the `json.dumps` rendering of a value. -/
def dumpsChars : Py → List Char
  | .none => 'n' :: ['u', 'l', 'l']
  | .bool true => 't' :: ['r', 'u', 'e']
  | .bool false => 'f' :: ['a', 'l', 's', 'e']
  | .int i => intChars i
  | .str s => jsonStrChars s
  | .list [] => ['[', ']']
  | .list (x :: xs) => '[' :: (dumpsChars x ++ dumpsItemsTail xs ++ [']'])
  | .dict [] => ['{', '}']
  | .dict (kv :: kvs) =>
      '{' :: (jsonStrChars kv.1 ++ ':' :: ' ' :: dumpsChars kv.2
        ++ dumpsEntriesTail kvs ++ ['}'])

/-- The `", item"` continuation of a list rendering. -/
def dumpsItemsTail : List Py → List Char
  | [] => []
  | x :: xs => ',' :: ' ' :: (dumpsChars x ++ dumpsItemsTail xs)

/-- The `", key: value"` continuation of a dict rendering. -/
def dumpsEntriesTail : List (String × Py) → List Char
  | [] => []
  | kv :: kvs =>
      ',' :: ' ' :: (jsonStrChars kv.1 ++ ':' :: ' ' :: dumpsChars kv.2
        ++ dumpsEntriesTail kvs)
end

/-- Model of `json.dumps` with default options. -/
def pyDumps (v : Py) : String := String.mk (dumpsChars v)

/-! ### A model of `json.loads`

A total recursive-descent parser over the character list, structurally
recursive on a fuel counter (the input length suffices).  It accepts exactly
the JSON grammar `pyDumps` emits: literals, decimal integers, strings with the
short escapes, arrays and objects, with whitespace tolerated between tokens.
Like `json.loads` it fails (returns `Option.none`, the model of
`json.JSONDecodeError`) on text that is not a single structured value;
`\uXXXX` escapes and float syntax are outside the modelled fragment, and raw
control characters inside strings are tolerated rather than rejected — no
claim depends on either corner. -/

/-- JSON whitespace. -/
def isJsonWs (c : Char) : Bool := c == ' ' || c == '\n' || c == '\t' || c == '\r'

/-- Drop leading JSON whitespace. -/
def dropWs : List Char → List Char
  | c :: cs => if isJsonWs c then dropWs cs else c :: cs
  | [] => []

/-- ASCII decimal digit test. -/
def isDigitChar (c : Char) : Bool := 48 ≤ c.toNat && c.toNat ≤ 57

/-- Split off the leading run of decimal digits. -/
def grabDigits : List Char → List Char × List Char
  | c :: cs =>
      if isDigitChar c then
        let p := grabDigits cs
        (c :: p.1, p.2)
      else ([], c :: cs)
  | [] => ([], [])

/-- The natural number a digit run denotes. -/
def digitsNat (ds : List Char) : Nat :=
  ds.foldl (fun acc c => acc * 10 + (c.toNat - 48)) 0

/-- The character a short JSON escape denotes, if the escape is valid. -/
def jsonUnescape : Char → Option Char
  | 'n' => some '\n'
  | 't' => some '\t'
  | 'r' => some '\r'
  | 'b' => some (Char.ofNat 8)
  | 'f' => some (Char.ofNat 12)
  | '"' => some '"'
  | '\\' => some '\\'
  | '/' => some '/'
  | _ => Option.none

/-- Parse the body of a string literal after the opening quote. -/
def parseStrTail (acc : List Char) : List Char → Option (String × List Char)
  | [] => Option.none
  | c :: rest =>
      if c = '"' then some (String.mk acc.reverse, rest)
      else if c = '\\' then
        match rest with
        | [] => Option.none
        | e :: rest2 =>
            match jsonUnescape e with
            | some ch => parseStrTail (ch :: acc) rest2
            | Option.none => Option.none
      else parseStrTail (c :: acc) rest

mutual
/-- Parse one JSON value, returning it with the unconsumed remainder. -/
def parseVal (fuel : Nat) (cs : List Char) : Option (Py × List Char) :=
  match fuel with
  | 0 => Option.none
  | fuel + 1 =>
    match dropWs cs with
    | [] => Option.none
    | c :: r =>
      if c = 'n' then
        match r with
        | 'u' :: 'l' :: 'l' :: r2 => some (.none, r2)
        | _ => Option.none
      else if c = 't' then
        match r with
        | 'r' :: 'u' :: 'e' :: r2 => some (.bool true, r2)
        | _ => Option.none
      else if c = 'f' then
        match r with
        | 'a' :: 'l' :: 's' :: 'e' :: r2 => some (.bool false, r2)
        | _ => Option.none
      else if c = '"' then (parseStrTail [] r).map (fun p => (.str p.1, p.2))
      else if c = '[' then
        match dropWs r with
        | [] => Option.none
        | d :: r2 =>
            if d = ']' then some (.list [], r2)
            else (parseItems fuel (d :: r2)).map (fun p => (.list p.1, p.2))
      else if c = '{' then
        match dropWs r with
        | [] => Option.none
        | d :: r2 =>
            if d = '}' then some (.dict [], r2)
            else (parseEntries fuel (d :: r2)).map (fun p => (.dict p.1, p.2))
      else if c = '-' then
        match grabDigits r with
        | ([], _) => Option.none
        | (ds, r2) => some (.int (-(digitsNat ds : Int)), r2)
      else if isDigitChar c then
        match grabDigits (c :: r) with
        | (ds, r2) => some (.int (digitsNat ds), r2)
      else Option.none

/-- Parse one or more comma-separated array items up to the closing bracket. -/
def parseItems (fuel : Nat) (cs : List Char) : Option (List Py × List Char) :=
  match fuel with
  | 0 => Option.none
  | fuel + 1 =>
    match parseVal fuel cs with
    | Option.none => Option.none
    | some (v, r) =>
        match dropWs r with
        | ',' :: r2 => (parseItems fuel r2).map (fun p => (v :: p.1, p.2))
        | ']' :: r2 => some ([v], r2)
        | _ => Option.none

/-- Parse one or more comma-separated object entries up to the closing brace. -/
def parseEntries (fuel : Nat) (cs : List Char) : Option (List (String × Py) × List Char) :=
  match fuel with
  | 0 => Option.none
  | fuel + 1 =>
    match dropWs cs with
    | '"' :: r =>
        (match parseStrTail [] r with
         | Option.none => Option.none
         | some (key, r1) =>
             match dropWs r1 with
             | ':' :: r2 =>
                 (match parseVal fuel r2 with
                  | Option.none => Option.none
                  | some (v, r3) =>
                      match dropWs r3 with
                      | ',' :: r4 =>
                          (parseEntries fuel r4).map (fun p => ((key, v) :: p.1, p.2))
                      | '}' :: r4 => some ([(key, v)], r4)
                      | _ => Option.none)
             | _ => Option.none)
    | _ => Option.none
end

/-- Model of `json.loads`: parse the whole text as one structured value,
`Option.none` on a decode error. -/
def pyLoads (s : String) : Option Py :=
  match parseVal (s.length + 1) s.toList with
  | some (v, rest) => if (dropWs rest).isEmpty then some v else Option.none
  | Option.none => Option.none

/-- Model of Python `str(v)` as the embedded code interpolates values into
f-strings: exact for `None`, booleans, integers and strings; for containers
(which only reach `str()` on code paths no claim exercises) the JSON rendering
stands in for Python's `repr`-based form. -/
def pyStr (v : Py) : String :=
  match v with
  | .none => "None"
  | .bool true => "True"
  | .bool false => "False"
  | .int i => String.mk (intChars i)
  | .str s => s
  | v => pyDumps v

/-! ### The response normalizer (`_ensure_json_response`)

`PerplexityLLM._ensure_json_response` and `GeminiLLM._ensure_json_response`
share one recovery cascade: parse the whole text, else extract a fenced block,
else the first `[...]` span, else the first `{...}` span; if an extraction
candidate is found but fails to parse, the `JSONDecodeError` handler skips the
remaining attempts and the wrapped fallback is taken.  The regex searches are
modelled by leftmost substring searches with the lazy-group semantics the
patterns have (first opener, then nearest closer). -/

/-- Split the input at the first occurrence of `pat`: `some (before, after)`
with `input = before ++ pat ++ after` and `before` shortest, `Option.none`
when `pat` does not occur. -/
def splitAtSubstr (pat : List Char) : List Char → Option (List Char × List Char)
  | [] => if pat.isEmpty then some ([], []) else Option.none
  | c :: cs =>
      if pat.isPrefixOf (c :: cs) then some ([], (c :: cs).drop pat.length)
      else (splitAtSubstr pat cs).map (fun p => (c :: p.1, p.2))

/-- The triple-backtick fence delimiter. -/
def fenceChars : List Char := [Char.ofNat 96, Char.ofNat 96, Char.ofNat 96]

/-- The `json` language tag that may follow an opening fence. -/
def jsonTagChars : List Char := ['j', 's', 'o', 'n']

/-- Model of the four fenced-block regex patterns: the content between the
first fence (with its optional `json` tag dropped) and the next fence.  Text
without a triple-backtick fence yields no match, which is the property the
claims rely on. -/
def fencedBlock (cs : List Char) : Option (List Char) :=
  match splitAtSubstr fenceChars cs with
  | Option.none => Option.none
  | some (_, rest) =>
      let rest2 := if jsonTagChars.isPrefixOf rest then rest.drop 4 else rest
      match splitAtSubstr fenceChars rest2 with
      | Option.none => Option.none
      | some (content, _) => some content

/-- Model of the lazy span regexes `\[.*?\]` and `\{.*?\}` under `re.search`:
the first opening character through the first closing character after it. -/
def firstSpan (op cl : Char) (cs : List Char) : Option (List Char) :=
  match splitAtSubstr [op] cs with
  | Option.none => Option.none
  | some (_, rest) =>
      match splitAtSubstr [cl] rest with
      | Option.none => Option.none
      | some (mid, _) => some (op :: (mid ++ [cl]))

/-- The shared recovery cascade of both `_ensure_json_response` variants;
`Option.none` means every attempt failed and the wrapped fallback is taken
(also when a fence or span was found but its content failed to parse, since
the decode-error handler skips the remaining attempts). -/
def extractStructured (text : String) : Option Py :=
  match pyLoads text with
  | some v => some v
  | Option.none =>
      match fencedBlock text.data with
      | some inner => pyLoads (String.mk inner).trim
      | Option.none =>
          match firstSpan '[' ']' text.data with
          | some span => pyLoads (String.mk span)
          | Option.none =>
              match firstSpan '{' '}' text.data with
              | some span => pyLoads (String.mk span)
              | Option.none => Option.none

/-- The wrapped fallback envelope
`{"response": text, "status": "success", "format": "wrapped"}`. -/
def wrappedEnvelope (text : String) : Py :=
  .dict [("response", .str text), ("status", .str "success"), ("format", .str "wrapped")]

/-- `PerplexityLLM._ensure_json_response` (src/core/llm/perplexity_llm.py,
lines 154-224): a recovered value is returned inside a `{response, status}`
envelope — note that no `format` key is present on any success path — and
recovery failure returns the wrapped envelope itself. -/
def ensure_json_response_perplexity (text : String) : Py :=
  match extractStructured text with
  | some v => .dict [("response", v), ("status", .str "success")]
  | Option.none => wrappedEnvelope text

/-- `GeminiLLM._ensure_json_response` (src/core/llm/gemini_llm.py, lines
137-195): a recovered value is returned bare (no envelope at all), and
recovery failure returns `json.dumps` of the wrapped envelope — a string,
not a dict. -/
def ensure_json_response_gemini (text : String) : Py :=
  match extractStructured text with
  | some v => v
  | Option.none => .str (pyDumps (wrappedEnvelope text))

/-! ### The agent feedback loop (`StatelessAgent.call`,
src/core/agent/stateless_agent_class.py lines 153-228)

The model client and the bound tool are the external collaborators; a claim's
stub enters the embedding as a function of the number of calls already made
(`llm k` is the normalized response to the k-th query of this call — the
corrective prompt's text cannot influence a count-indexed stub — and
`tool k input` is the k-th tool invocation's result).  Exceptions caught by
the `except` at line 223 become `failRes` values; the loop itself has no
counter in the source, so the model is fuel-bounded and a run that would loop
forever is `Option.none`. -/

/-- The outcome of one `StatelessAgent.call`: the returned dict together with
the number of model queries and of tool invocations performed. -/
structure AgentOutcome where
  result : Py
  queries : Nat
  toolRuns : Nat
deriving Repr

/-- The `{"success": False, "error": msg}` dict every failure path returns. -/
def failRes (msg : String) : Py :=
  .dict [("success", .bool false), ("error", .str msg)]

/-- Line 196, the `while` guard: keep retrying while the tool result is not a
dict, or is a dict whose `success` is the `False` object while `server_error`
is not (`.get` defaults `True` and `False`, identity tests `is False`). -/
def retryCond (toolResponse : Py) : Bool :=
  !toolResponse.isDict ||
    (isExactlyFalse (pyGetD toolResponse "success" (.bool true)) &&
      isExactlyFalse (pyGetD toolResponse "server_error" (.bool false)))

/-- Line 200, the terminal check on a corrective query's response: `None`, or
a dict with `status == "success"` and `format == "wrapped"`. -/
def wrappedTerminal (r : Py) : Bool :=
  r.isNone || (r.isDict && pyEqStr (pyGetD r "status" .none) "success"
    && pyEqStr (pyGetD r "format" .none) "wrapped")

/-- Line 202: the text interpolated into the terminal error message —
`response.get('response', str(response))` for a dict, `str(response)`
otherwise. -/
def responseText (r : Py) : String :=
  if r.isDict then pyStr (pyGetD r "response" (.str (pyStr r))) else pyStr r

/-- Lines 211-214, the return after the loop exits: success `True`, with
`data` the tool response's `response` field (default `{}`). -/
def loopExitResult (toolResponse : Py) : Py :=
  .dict [("success", .bool true),
    ("data", if toolResponse.isDict then pyGetD toolResponse "response" (.dict [])
      else toolResponse)]

/-- The feedback loop (lines 196-209): while the retry guard holds, requery
the model (query index `q`); a `None` or wrapped corrective response is
terminal with the `tool call failed` error; otherwise the tool runs on the
new response (invocation index `t`) and the loop continues. -/
def feedbackLoop (name : String) (llm : Nat → Py) (tool : Nat → Py → Py) :
    Nat → Py → Nat → Nat → Option AgentOutcome
  | 0, _, _, _ => Option.none
  | fuel + 1, toolResponse, q, t =>
      if retryCond toolResponse then
        let r := llm q
        if wrappedTerminal r then
          some ⟨failRes (name ++ " says tool call failed, generated response: "
            ++ responseText r), q + 1, t⟩
        else feedbackLoop name llm tool fuel (tool t r) (q + 1) (t + 1)
      else some ⟨loopExitResult toolResponse, q, t⟩

/-- `StatelessAgent.call` with a bound tool (the `is_in_workflow` branch,
lines 177-214): query once; a response that is not a dict makes
`.get('status')` raise `AttributeError` (caught at line 223, modelled with a
stand-in message); a status other than `"success"` raises the line-188 error;
otherwise the `response` field is unwrapped (`None` when absent), the tool
runs once on it, and the feedback loop takes over. -/
def call_with_tool (name : String) (llm : Nat → Py) (tool : Nat → Py → Py)
    (fuel : Nat) : Option AgentOutcome :=
  let r0 := llm 0
  if !r0.isDict then
    some ⟨failRes "AttributeError: object has no attribute get", 1, 0⟩
  else if !pyEqStr (pyGetD r0 "status" .none) "success" then
    some ⟨failRes (name ++ " error: "
      ++ pyStr (pyGetD r0 "error" (.str "Unknown error"))), 1, 0⟩
  else
    let resp := pyGetD r0 "response" .none
    feedbackLoop name llm tool fuel (tool 0 resp) 1 1

/-- `StatelessAgent.call` without a bound tool (lines 215-222): one query,
whose response is returned as `data` unconditionally — no status check. -/
def call_no_tool (llm : Nat → Py) : AgentOutcome :=
  ⟨.dict [("success", .bool true), ("data", llm 0)], 1, 0⟩

/-! ### The pipeline (`Workflow.run`, src/core/workflow/workflow_class.py
lines 13-29) -/

/-- Line 20: the next node's input. The `Input` key is present exactly when
the carried data is truthy (Python's emptiness test). -/
def mkNodeInput (prompt : String) (data : Py) : Py :=
  if pyTruthy data then
    .dict [("User instructions", .str prompt), ("Input", data)]
  else .dict [("User instructions", .str prompt)]

/-- The loop of `Workflow.run` over the remaining nodes, from the current
`next_node_input` value `acc`.  Returns the run's result together with the
trace of `(input, output)` pairs of the nodes actually invoked.  A failed
subscript (`KeyError`/`TypeError`, modelled by `pySubscript = Option.none`)
or a `success` that is the `False` object raises; the `except` at line 25
catches and the current `next_node_input` is returned. -/
def workflowGo (prompt : String) : List (Py → Py) → Py → Py × List (Py × Py)
  | [], acc => (acc, [])
  | node :: rest, acc =>
      match pySubscript acc "data" with
      | Option.none => (acc, [])
      | some d =>
          let input := mkNodeInput prompt d
          let out := node input
          match pySubscript out "success" with
          | Option.none => (out, [(input, out)])
          | some s =>
              if isExactlyFalse s then (out, [(input, out)])
              else
                let p := workflowGo prompt rest out
                (p.1, (input, out) :: p.2)

/-- `Workflow.run`: the loop started from `next_node_input = {"data": {}}`. -/
def workflowRun (prompt : String) (nodes : List (Py → Py)) : Py × List (Py × Py) :=
  workflowGo prompt nodes (.dict [("data", .dict [])])

/-! ### The readable renderer
(`StatelessAgent._convert_json_to_readable_string`, lines 63-132) -/

/-- Python `sep.join(parts)`. -/
def joinSep (sep : String) : List String → String
  | [] => ""
  | [x] => x
  | x :: xs => x ++ sep ++ joinSep sep xs

/-- Python `"  " * n`, the indentation of one nesting level. -/
def indentStr : Nat → String
  | 0 => ""
  | n + 1 => "  " ++ indentStr n

/-- Line 83: the dotted field path (`key` alone at the top level). -/
def fieldPathOf (currentPath key : String) : String :=
  if currentPath.isEmpty then key else currentPath ++ "." ++ key

/-- Lines 88-93, the `include_fields` test for one dict entry: some named
field `f` equals the entry's dotted path, or extends it with a dot (so
ancestors of a named field pass), or the entry's bare key is itself a member
of the list — that last disjunct does not depend on `f`, so it passes for any
entry whose key is named, wherever it occurs, as long as the list is
nonempty. -/
def shouldInclude (fields : List String) (fieldPath key : String) : Bool :=
  fields.any (fun f => f == fieldPath || (fieldPath ++ ".").isPrefixOf f
    || fields.contains key)

/-- Python `str(i)` for the 1-based item indices. -/
def natStr (i : Nat) : String := String.mk (natChars i)

mutual
/-- `StatelessAgent._convert_json_to_readable_string`: render a structured
value as indented text, filtering dict entries through `shouldInclude` when
an `include_fields` list is configured (`fields = some ...`). -/
def convert_json_to_readable_string (fields : Option (List String)) :
    Py → Nat → String → String
  | .dict kvs, lvl, path => joinSep "\n" (readableEntryLines fields kvs lvl path)
  | .list [], _, _ => "[]"
  | .list (x :: rest), lvl, path =>
      if (x :: rest).all isPrimitive then
        "[" ++ joinSep ", " ((x :: rest).map pyStr) ++ "]"
      else joinSep "\n" (readableTopItemLines fields (x :: rest) 1 lvl path)
  | v, _, _ => pyStr v

/-- The `readable_lines` a dict's entries contribute (lines 80-115): each
kept entry contributes its block of lines, a skipped entry contributes
nothing (`continue`). -/
def readableEntryLines (fields : Option (List String)) :
    List (String × Py) → Nat → String → List String
  | [], _, _ => []
  | (key, value) :: rest, lvl, path =>
      let fp := fieldPathOf path key
      let keep :=
        match fields with
        | Option.none => true
        | some fs => shouldInclude fs fp key
      (if keep then readableEntryBlock fields key value lvl fp else [])
        ++ readableEntryLines fields rest lvl path

/-- The lines one kept dict entry contributes (lines 97-114); the nested-dict
case inlines the renderer's dict equation (the recursive call at line 112). -/
def readableEntryBlock (fields : Option (List String)) (key : String) (value : Py)
    (lvl : Nat) (fp : String) : List String :=
  match value with
  | .list [] => [indentStr lvl ++ key ++ ": []"]
  | .list (x :: xs) =>
      if (x :: xs).all isPrimitive then
        [indentStr lvl ++ key ++ ": " ++ joinSep ", " ((x :: xs).map pyStr)]
      else
        (indentStr lvl ++ key ++ ":")
          :: readableNestedItemLines fields (x :: xs) 1 lvl fp
  | .dict kvs =>
      (indentStr lvl ++ key ++ ":")
        :: [joinSep "\n" (readableEntryLines fields kvs (lvl + 1) fp)]
  | v => [indentStr lvl ++ key ++ ": " ++ pyStr v]

/-- Lines 107-109: the `[i]:` lines of a complex list value inside a dict
(1-based index, item rendered two levels deeper, path extended by `[i]`). -/
def readableNestedItemLines (fields : Option (List String)) :
    List Py → Nat → Nat → String → List String
  | [], _, _, _ => []
  | x :: xs, i, lvl, fp =>
      (indentStr lvl ++ "  [" ++ natStr i ++ "]: "
        ++ convert_json_to_readable_string fields x (lvl + 2) (fp ++ "[" ++ natStr i ++ "]"))
        :: readableNestedItemLines fields xs (i + 1) lvl fp

/-- Lines 125-127: the `[i]:` sections of a complex top-level list. -/
def readableTopItemLines (fields : Option (List String)) :
    List Py → Nat → Nat → String → List String
  | [], _, _, _ => []
  | x :: xs, i, lvl, path =>
      (indentStr lvl ++ "[" ++ natStr i ++ "]: "
        ++ convert_json_to_readable_string fields x (lvl + 1) (path ++ "[" ++ natStr i ++ "]"))
        :: readableTopItemLines fields xs (i + 1) lvl path
end

/-- `StatelessAgent.before_call` (lines 134-151): structured input is
rendered to readable text, any other input passes through. -/
def before_call (fields : Option (List String)) (input : Py) : Py :=
  match input with
  | .dict kvs => .str (convert_json_to_readable_string fields (.dict kvs) 0 "")
  | .list xs => .str (convert_json_to_readable_string fields (.list xs) 0 "")
  | v => v

mutual
/-- The include-fields selection expressed as structure pruning: a dict entry
is kept exactly when `shouldInclude` accepts it, recursively along the same
dotted paths the renderer builds. -/
def filterPy (fields : List String) : Py → String → Py
  | .dict kvs, path => .dict (filterEntries fields kvs path)
  | .list xs, path => .list (filterItems fields xs 1 path)
  | v, _ => v

/-- Prune a dict's entries through `shouldInclude`. -/
def filterEntries (fields : List String) :
    List (String × Py) → String → List (String × Py)
  | [], _ => []
  | (key, value) :: rest, path =>
      let fp := fieldPathOf path key
      if shouldInclude fields fp key then
        (key, filterPy fields value fp) :: filterEntries fields rest path
      else filterEntries fields rest path

/-- Prune a list's items (1-based `[i]` path extension, as the renderer). -/
def filterItems (fields : List String) : List Py → Nat → String → List Py
  | [], _, _ => []
  | x :: xs, i, path =>
      filterPy fields x (path ++ "[" ++ natStr i ++ "]")
        :: filterItems fields xs (i + 1) path
end

/-! ### The result-shape invariant and the concrete stubs

`wellFormedResult` states the implicit contract of `StatelessAgent.call`:
every returned value is a dict with a boolean `success`, a `data` key when it
is `True` and a string `error` when it is `False`.  The stub definitions
below realise the model-client and tool behaviours the spec's testable
properties quantify over. -/

/-- The shape every `StatelessAgent.call` result has. -/
def wellFormedResult (r : Py) : Prop :=
  (pySubscript r "success" = some (.bool true) ∧ ∃ d, pySubscript r "data" = some d) ∨
  (pySubscript r "success" = some (.bool false) ∧ ∃ s, pySubscript r "error" = some (.str s))

/-- A model client that always answers with a successful structured envelope. -/
def llmOkStub : Nat → Py :=
  fun _ => .dict [("status", .str "success"), ("response", .dict [("to", .str "x")])]

/-- A model client whose every response is the unrecoverable wrapped form. -/
def llmWrappedStub : Nat → Py := fun _ => wrappedEnvelope "free text"

/-- A model client that reports a transport failure status. -/
def llmErrStub : Nat → Py :=
  fun _ => .dict [("status", .str "error"), ("error", .str "transport failure")]

/-- A tool that always reports a `ServerError` (success `False`,
`server_error` `True`). -/
def toolServerErrStub : Nat → Py → Py :=
  fun _ _ => .dict [("success", .bool false), ("server_error", .bool true),
    ("error", .str "mail server unreachable")]

/-- A tool that always reports a `ClientError` (success `False`,
`server_error` absent, hence defaulted `False`). -/
def toolClientErrStub : Nat → Py → Py :=
  fun _ _ => .dict [("success", .bool false), ("error", .str "bad input")]

/-- A tool whose result is irrelevant to the scenario it appears in. -/
def toolIdleStub : Nat → Py → Py := fun _ _ => .dict []

/-- A pipeline stage that succeeds with structured data. -/
def stageOkStub : Py → Py :=
  fun _ => .dict [("success", .bool true), ("data", .dict [("x", .int 1)])]

/-- A pipeline stage that fails. -/
def stageFailStub : Py → Py :=
  fun _ => .dict [("success", .bool false), ("error", .str "stage2 broke")]

/-- A pipeline stage that succeeds with scalar data. -/
def stageThreeStub : Py → Py :=
  fun _ => .dict [("success", .bool true), ("data", .int 3)]

/-! ### The codec round-trip: `pyLoads (pyDumps v) = some v`

This is the serializer/parser half of the spec's normalizer round-trip
property; the normalizer theorems build on it. -/

/-- A list that cannot extend a digit run: empty or headed by a non-digit. -/
def nonDigitHead : List Char → Bool
  | [] => true
  | c :: _ => !isDigitChar c

theorem digitChar_toNat (d : Nat) (h : d < 10) : (digitChar d).toNat = 48 + d := by
  interval_cases d <;> decide

theorem digitChar_isDigit (d : Nat) (h : d < 10) : isDigitChar (digitChar d) = true := by
  interval_cases d <;> decide

theorem natChars_all_digits (n : Nat) : ∀ c ∈ natChars n, isDigitChar c = true := by
  induction n using Nat.strong_induction_on with
  | _ n ih =>
    rw [natChars]
    by_cases h : n < 10
    · simp only [if_pos h, List.mem_singleton]
      rintro c rfl
      exact digitChar_isDigit n h
    · simp only [if_neg h, List.mem_append, List.mem_singleton]
      rintro c (hc | rfl)
      · exact ih (n / 10) (Nat.div_lt_self (by omega) (by omega)) c hc
      · exact digitChar_isDigit (n % 10) (Nat.mod_lt _ (by omega))

theorem natChars_ne_nil (n : Nat) : natChars n ≠ [] := by
  rw [natChars]
  by_cases h : n < 10 <;> simp [h]

theorem natChars_head (n : Nat) :
    ∃ c t, natChars n = c :: t ∧ isDigitChar c = true := by
  match h : natChars n with
  | [] => exact absurd h (natChars_ne_nil n)
  | c :: t =>
    exact ⟨c, t, rfl, natChars_all_digits n c (h ▸ List.mem_cons_self c t)⟩

theorem digitsNat_natChars (n : Nat) : digitsNat (natChars n) = n := by
  induction n using Nat.strong_induction_on with
  | _ n ih =>
    rw [natChars]
    by_cases h : n < 10
    · simp only [if_pos h, digitsNat, List.foldl_cons, List.foldl_nil]
      rw [digitChar_toNat n h]
      omega
    · simp only [if_neg h, digitsNat, List.foldl_append, List.foldl_cons, List.foldl_nil]
      have hrec := ih (n / 10) (Nat.div_lt_self (by omega) (by omega))
      rw [digitsNat] at hrec
      rw [hrec, digitChar_toNat (n % 10) (Nat.mod_lt _ (by omega))]
      omega

theorem grabDigits_stop {cs : List Char} (h : nonDigitHead cs = true) :
    grabDigits cs = ([], cs) := by
  match cs with
  | [] => rfl
  | c :: t =>
    simp only [nonDigitHead, Bool.not_eq_true'] at h
    simp [grabDigits, h]

theorem grabDigits_run (ds : List Char) (hds : ∀ c ∈ ds, isDigitChar c = true)
    (rest : List Char) (hrest : nonDigitHead rest = true) :
    grabDigits (ds ++ rest) = (ds, rest) := by
  induction ds with
  | nil => simpa using grabDigits_stop hrest
  | cons c t ih =>
    have hc : isDigitChar c = true := hds c (List.mem_cons_self c t)
    have ht := ih (fun x hx => hds x (List.mem_cons_of_mem c hx))
    simp [grabDigits, hc, ht]

/-- A digit is none of the characters the parser dispatch singles out. -/
theorem digit_facts {c : Char} (h : isDigitChar c = true) :
    c ≠ 'n' ∧ c ≠ 't' ∧ c ≠ 'f' ∧ c ≠ '"' ∧ c ≠ '[' ∧ c ≠ '{' ∧ c ≠ '-' ∧
    isJsonWs c = false ∧ c ≠ ']' ∧ c ≠ '}' ∧ c ≠ ',' := by
  refine ⟨?_, ?_, ?_, ?_, ?_, ?_, ?_, ?_, ?_, ?_, ?_⟩
  all_goals first
    | (intro he; rw [he] at h; simp [isDigitChar] at h)
    | (simp only [isJsonWs, Bool.or_eq_false_iff, beq_eq_false_iff_ne]
       refine ⟨⟨⟨?_, ?_⟩, ?_⟩, ?_⟩ <;>
         (intro he; rw [he] at h; simp [isDigitChar] at h))

theorem dropWs_cons_not {c : Char} (t : List Char) (h : isJsonWs c = false) :
    dropWs (c :: t) = c :: t := by
  simp [dropWs, h]

theorem dropWs_cons_ws {c : Char} (t : List Char) (h : isJsonWs c = true) :
    dropWs (c :: t) = dropWs t := by
  simp [dropWs, h]

theorem string_mk_toList (s : String) : String.mk s.toList = s := by
  cases s
  rfl

theorem string_mk_data (s : String) : String.mk s.data = s := by
  cases s
  rfl

theorem nonDigitHead_cons {c : Char} (t : List Char) (h : isDigitChar c = false) :
    nonDigitHead (c :: t) = true := by
  simp [nonDigitHead, h]

theorem parseStrTail_escapeChar (c : Char) (acc rest : List Char) :
    parseStrTail acc (jsonEscapeChar c ++ rest) = parseStrTail (c :: acc) rest := by
  by_cases h1 : c = '"'
  · subst h1
    rw [show jsonEscapeChar '"' = ['\\', '"'] from by decide]
    simp only [List.cons_append, List.nil_append]
    rw [parseStrTail.eq_def]
    simp [jsonUnescape]
  · by_cases h2 : c = '\\'
    · subst h2
      rw [show jsonEscapeChar '\\' = ['\\', '\\'] from by decide]
      simp only [List.cons_append, List.nil_append]
      rw [parseStrTail.eq_def]
      simp [jsonUnescape]
    · by_cases h3 : c = '\n'
      · subst h3
        rw [show jsonEscapeChar '\n' = ['\\', 'n'] from by decide]
        simp only [List.cons_append, List.nil_append]
        rw [parseStrTail.eq_def]
        simp [jsonUnescape]
      · by_cases h4 : c = '\t'
        · subst h4
          rw [show jsonEscapeChar '\t' = ['\\', 't'] from by decide]
          simp only [List.cons_append, List.nil_append]
          rw [parseStrTail.eq_def]
          simp [jsonUnescape]
        · by_cases h5 : c = '\r'
          · subst h5
            rw [show jsonEscapeChar '\r' = ['\\', 'r'] from by decide]
            simp only [List.cons_append, List.nil_append]
            rw [parseStrTail.eq_def]
            simp [jsonUnescape]
          · simp only [jsonEscapeChar, if_neg h1, if_neg h2, if_neg h3, if_neg h4, if_neg h5,
              List.cons_append, List.nil_append]
            rw [parseStrTail.eq_def]
            simp [h1, h2]

theorem parseStrTail_escaped (cs : List Char) : ∀ (acc rest : List Char),
    parseStrTail acc (cs.flatMap jsonEscapeChar ++ '"' :: rest)
      = some (String.mk (acc.reverse ++ cs), rest) := by
  induction cs with
  | nil =>
      intro acc rest
      rw [List.flatMap_nil, List.nil_append, parseStrTail.eq_def]
      simp
  | cons c cs ih =>
      intro acc rest
      rw [List.flatMap_cons, List.append_assoc, parseStrTail_escapeChar, ih]
      simp

/-- Every rendered value starts with a non-whitespace character that is not a
closing bracket, a closing brace or a comma. -/
theorem dumpsChars_head (v : Py) :
    ∃ c t, dumpsChars v = c :: t ∧ isJsonWs c = false ∧ c ≠ ']' ∧ c ≠ '}' := by
  cases v with
  | int i =>
      by_cases hi : i < 0
      · refine ⟨'-', natChars i.natAbs, ?_, by decide⟩
        simp [dumpsChars, intChars, hi]
      · obtain ⟨c, t, hct, hc⟩ := natChars_head i.natAbs
        obtain ⟨_, _, _, _, _, _, _, hws, hrb, hcb, _⟩ := digit_facts hc
        refine ⟨c, t, ?_, hws, hrb, hcb⟩
        simp [dumpsChars, intChars, hi, hct]
  | bool b => cases b <;> exact ⟨_, _, rfl, by decide⟩
  | list xs => cases xs <;> exact ⟨_, _, rfl, by decide⟩
  | dict kvs => cases kvs <;> exact ⟨_, _, rfl, by decide⟩
  | none => exact ⟨_, _, rfl, by decide⟩
  | str s => exact ⟨_, _, rfl, by decide⟩

theorem parseVal_skip_space (fuel : Nat) (cs : List Char) :
    parseVal fuel (' ' :: cs) = parseVal fuel cs := by
  cases fuel with
  | zero => rfl
  | succ m => simp only [parseVal, dropWs_cons_ws _ (by decide : isJsonWs ' ' = true)]

theorem parseItems_skip_space (fuel : Nat) (cs : List Char) :
    parseItems fuel (' ' :: cs) = parseItems fuel cs := by
  cases fuel with
  | zero => rfl
  | succ m => simp only [parseItems, parseVal_skip_space]

theorem parseEntries_skip_space (fuel : Nat) (cs : List Char) :
    parseEntries fuel (' ' :: cs) = parseEntries fuel cs := by
  cases fuel with
  | zero => rfl
  | succ m => simp only [parseEntries, dropWs_cons_ws _ (by decide : isJsonWs ' ' = true)]

theorem parseVal_int (m : Nat) (i : Int) (rest : List Char) (h : nonDigitHead rest = true) :
    parseVal (m + 1) (intChars i ++ rest) = some (.int i, rest) := by
  obtain ⟨c, t, hct, hc⟩ := natChars_head i.natAbs
  have hgrab : grabDigits (natChars i.natAbs ++ rest) = (c :: t, rest) := by
    rw [grabDigits_run _ (natChars_all_digits _) _ h, hct]
  have hdv : digitsNat (c :: t) = i.natAbs := by
    rw [← hct]
    exact digitsNat_natChars _
  by_cases hi : i < 0
  · have harg : intChars i ++ rest = '-' :: (natChars i.natAbs ++ rest) := by
      simp [intChars, hi]
    rw [harg]
    simp only [parseVal]
    rw [dropWs_cons_not _ (by decide)]
    simp only [hgrab]
    simp [hdv]
    rw [abs_of_neg hi]
    ring
  · obtain ⟨hn, ht, hf, hq, hlb, hlc, hminus, hws, _, _, _⟩ := digit_facts hc
    have harg : intChars i ++ rest = c :: (t ++ rest) := by
      simp [intChars, hi, hct]
    have hgrab2 := hgrab
    rw [hct, List.cons_append] at hgrab2
    rw [harg]
    simp only [parseVal]
    rw [dropWs_cons_not _ hws]
    simp [hn, ht, hf, hq, hlb, hlc, hminus, hc, hgrab2, hdv]
    omega

theorem parseVal_arr_step (m : Nat) (e : Py) (tail : List Char) :
    parseVal (m + 1) ('[' :: (dumpsChars e ++ tail)) =
      (parseItems m (dumpsChars e ++ tail)).map (fun p => (.list p.1, p.2)) := by
  obtain ⟨c, t, hct, hws, hrb, _⟩ := dumpsChars_head e
  simp only [parseVal]
  rw [dropWs_cons_not _ (by decide), hct, List.cons_append]
  have hdws : dropWs (c :: (t ++ tail)) = c :: (t ++ tail) := dropWs_cons_not _ hws
  simp [hdws, hrb]

theorem parseVal_obj_step (m : Nat) (k : String) (tail : List Char) :
    parseVal (m + 1) ('{' :: (jsonStrChars k ++ tail)) =
      (parseEntries m (jsonStrChars k ++ tail)).map (fun p => (.dict p.1, p.2)) := by
  simp only [parseVal]
  rw [dropWs_cons_not _ (by decide)]
  simp only [jsonStrChars, List.cons_append]
  rw [dropWs_cons_not _ (by decide)]
  simp

/-- The codec round-trip at every fuel level: parsing a rendered value (with
any non-digit remainder appended) recovers the value, and likewise for the
item and entry continuations. -/
theorem roundTrip_all : ∀ fuel : Nat,
    (∀ v rest, (dumpsChars v).length < fuel → nonDigitHead rest = true →
      parseVal fuel (dumpsChars v ++ rest) = some (v, rest)) ∧
    (∀ x xs rest, (dumpsChars x).length + (dumpsItemsTail xs).length + 1 < fuel →
      parseItems fuel (dumpsChars x ++ (dumpsItemsTail xs ++ ']' :: rest))
        = some (x :: xs, rest)) ∧
    (∀ k v kvs rest,
      (jsonStrChars k).length + (dumpsChars v).length + (dumpsEntriesTail kvs).length + 2
          < fuel →
      parseEntries fuel
        (jsonStrChars k ++ ':' :: ' ' :: (dumpsChars v ++ (dumpsEntriesTail kvs ++ '}' :: rest)))
        = some ((k, v) :: kvs, rest)) := by
  intro fuel
  induction fuel using Nat.strong_induction_on with
  | _ fuel ih =>
  match fuel with
  | 0 =>
      exact ⟨fun v rest h _ => absurd h (by omega),
        fun x xs rest h => absurd h (by omega),
        fun k v kvs rest h => absurd h (by omega)⟩
  | m + 1 =>
      obtain ⟨P, Q, R⟩ := ih m (Nat.lt_succ_self m)
      refine ⟨?_, ?_, ?_⟩
      · intro v rest hlen hrest
        cases v with
        | none =>
            simp only [dumpsChars, List.cons_append, List.nil_append]
            simp only [parseVal]
            rw [dropWs_cons_not _ (by decide)]
            simp
        | bool b =>
            cases b with
            | true =>
                simp only [dumpsChars, List.cons_append, List.nil_append]
                simp only [parseVal]
                rw [dropWs_cons_not _ (by decide)]
                simp
            | false =>
                simp only [dumpsChars, List.cons_append, List.nil_append]
                simp only [parseVal]
                rw [dropWs_cons_not _ (by decide)]
                simp
        | int i =>
            simp only [dumpsChars]
            exact parseVal_int m i rest hrest
        | str s =>
            have harg : dumpsChars (.str s) ++ rest
                = '"' :: (s.data.flatMap jsonEscapeChar ++ '"' :: rest) := by
              simp [dumpsChars, jsonStrChars]
            rw [harg]
            simp only [parseVal]
            rw [dropWs_cons_not _ (by decide)]
            simp [parseStrTail_escaped, string_mk_data]
        | list xs =>
            cases xs with
            | nil =>
                simp only [dumpsChars, List.cons_append, List.nil_append]
                simp only [parseVal]
                rw [dropWs_cons_not _ (by decide)]
                have hd2 : dropWs (']' :: rest) = ']' :: rest := dropWs_cons_not _ (by decide)
                simp [hd2]
            | cons x xs =>
                have harg : dumpsChars (.list (x :: xs)) ++ rest
                    = '[' :: (dumpsChars x ++ (dumpsItemsTail xs ++ ']' :: rest)) := by
                  simp [dumpsChars, List.append_assoc]
                rw [harg, parseVal_arr_step,
                  Q x xs rest (by
                    simp only [dumpsChars, List.length_cons, List.length_append] at hlen
                    omega)]
                rfl
        | dict kvs =>
            cases kvs with
            | nil =>
                simp only [dumpsChars, List.cons_append, List.nil_append]
                simp only [parseVal]
                rw [dropWs_cons_not _ (by decide)]
                have hd2 : dropWs ('}' :: rest) = '}' :: rest := dropWs_cons_not _ (by decide)
                simp [hd2]
            | cons kv kvs =>
                obtain ⟨k, v⟩ := kv
                have harg : dumpsChars (.dict ((k, v) :: kvs)) ++ rest
                    = '{' :: (jsonStrChars k
                        ++ ':' :: ' ' :: (dumpsChars v ++ (dumpsEntriesTail kvs ++ '}' :: rest))) := by
                  simp [dumpsChars, List.append_assoc]
                rw [harg, parseVal_obj_step,
                  R k v kvs rest (by
                    simp only [dumpsChars, jsonStrChars, List.length_cons,
                      List.length_append] at hlen ⊢
                    omega)]
                rfl
      · intro x xs rest hlen
        cases xs with
        | nil =>
            simp only [dumpsItemsTail, List.nil_append]
            simp only [parseItems]
            rw [P x (']' :: rest)
              (by simp only [dumpsItemsTail, List.length_nil] at hlen; omega)
              (nonDigitHead_cons _ (by decide))]
            have hd : dropWs (']' :: rest) = ']' :: rest := dropWs_cons_not _ (by decide)
            simp [hd]
        | cons y ys =>
            have harg : dumpsChars x ++ (dumpsItemsTail (y :: ys) ++ ']' :: rest)
                = dumpsChars x ++ (',' :: ' ' :: (dumpsChars y ++ (dumpsItemsTail ys ++ ']' :: rest))) := by
              simp [dumpsItemsTail, List.append_assoc]
            rw [harg]
            simp only [parseItems]
            rw [P x (',' :: ' ' :: (dumpsChars y ++ (dumpsItemsTail ys ++ ']' :: rest)))
              (by
                simp only [dumpsItemsTail, List.length_cons, List.length_append] at hlen
                omega)
              (nonDigitHead_cons _ (by decide))]
            have hd : dropWs (',' :: ' ' :: (dumpsChars y ++ (dumpsItemsTail ys ++ ']' :: rest)))
                = ',' :: ' ' :: (dumpsChars y ++ (dumpsItemsTail ys ++ ']' :: rest)) :=
              dropWs_cons_not _ (by decide)
            have hq := Q y ys rest (by
              simp only [dumpsItemsTail, List.length_cons, List.length_append] at hlen
              omega)
            simp [hd, parseItems_skip_space, hq]
      · intro k v kvs rest hlen
        cases kvs with
        | nil =>
            have harg : jsonStrChars k
                  ++ ':' :: ' ' :: (dumpsChars v ++ (dumpsEntriesTail [] ++ '}' :: rest))
                = '"' :: (k.data.flatMap jsonEscapeChar
                  ++ '"' :: ':' :: ' ' :: (dumpsChars v ++ '}' :: rest)) := by
              simp [jsonStrChars, dumpsEntriesTail, List.append_assoc]
            rw [harg]
            simp only [parseEntries]
            rw [dropWs_cons_not _ (by decide)]
            have hkey := parseStrTail_escaped k.data []
              (':' :: ' ' :: (dumpsChars v ++ '}' :: rest))
            simp only [List.reverse_nil, List.nil_append, string_mk_data] at hkey
            have hdcolon : dropWs (':' :: ' ' :: (dumpsChars v ++ '}' :: rest))
                = ':' :: ' ' :: (dumpsChars v ++ '}' :: rest) :=
              dropWs_cons_not _ (by decide)
            have hval := P v ('}' :: rest)
              (by simp only [jsonStrChars, List.length_cons, List.length_append] at hlen; omega)
              (nonDigitHead_cons _ (by decide))
            have hdbrace : dropWs ('}' :: rest) = '}' :: rest := dropWs_cons_not _ (by decide)
            simp [hkey, hdcolon, parseVal_skip_space, hval, hdbrace]
        | cons kv2 kvs2 =>
            obtain ⟨k2, v2⟩ := kv2
            have harg : jsonStrChars k
                  ++ ':' :: ' ' :: (dumpsChars v
                    ++ (dumpsEntriesTail ((k2, v2) :: kvs2) ++ '}' :: rest))
                = '"' :: (k.data.flatMap jsonEscapeChar
                  ++ '"' :: ':' :: ' ' :: (dumpsChars v
                    ++ ',' :: ' ' :: (jsonStrChars k2
                      ++ ':' :: ' ' :: (dumpsChars v2 ++ (dumpsEntriesTail kvs2 ++ '}' :: rest))))) := by
              simp [jsonStrChars, dumpsEntriesTail, List.append_assoc]
            rw [harg]
            simp only [parseEntries]
            rw [dropWs_cons_not _ (by decide)]
            have hkey := parseStrTail_escaped k.data []
              (':' :: ' ' :: (dumpsChars v
                ++ ',' :: ' ' :: (jsonStrChars k2
                  ++ ':' :: ' ' :: (dumpsChars v2 ++ (dumpsEntriesTail kvs2 ++ '}' :: rest)))))
            simp only [List.reverse_nil, List.nil_append, string_mk_data] at hkey
            have hdcolon : dropWs (':' :: ' ' :: (dumpsChars v
                  ++ ',' :: ' ' :: (jsonStrChars k2
                    ++ ':' :: ' ' :: (dumpsChars v2 ++ (dumpsEntriesTail kvs2 ++ '}' :: rest)))))
                = ':' :: ' ' :: (dumpsChars v
                  ++ ',' :: ' ' :: (jsonStrChars k2
                    ++ ':' :: ' ' :: (dumpsChars v2 ++ (dumpsEntriesTail kvs2 ++ '}' :: rest)))) :=
              dropWs_cons_not _ (by decide)
            have hval := P v (',' :: ' ' :: (jsonStrChars k2
                ++ ':' :: ' ' :: (dumpsChars v2 ++ (dumpsEntriesTail kvs2 ++ '}' :: rest))))
              (by simp only [jsonStrChars, List.length_cons, List.length_append] at hlen; omega)
              (nonDigitHead_cons _ (by decide))
            have hdcomma : dropWs (',' :: ' ' :: (jsonStrChars k2
                  ++ ':' :: ' ' :: (dumpsChars v2 ++ (dumpsEntriesTail kvs2 ++ '}' :: rest))))
                = ',' :: ' ' :: (jsonStrChars k2
                  ++ ':' :: ' ' :: (dumpsChars v2 ++ (dumpsEntriesTail kvs2 ++ '}' :: rest))) :=
              dropWs_cons_not _ (by decide)
            have hrec := R k2 v2 kvs2 rest (by
              simp only [dumpsEntriesTail, jsonStrChars, List.length_cons,
                List.length_append] at hlen ⊢
              omega)
            simp [hkey, hdcolon, parseVal_skip_space, hval, hdcomma,
              parseEntries_skip_space, hrec]

/-- The serializer/parser round-trip: `json.loads(json.dumps(v))` recovers
`v` for every modelled Python value. -/
theorem pyLoads_pyDumps (v : Py) : pyLoads (pyDumps v) = some v := by
  have h := (roundTrip_all ((dumpsChars v).length + 1)).1 v [] (by omega) (by decide)
  rw [List.append_nil] at h
  have hlist : (String.mk (dumpsChars v)).toList = dumpsChars v := rfl
  have hlen : (String.mk (dumpsChars v)).length = (dumpsChars v).length := rfl
  rw [pyLoads, pyDumps, hlist, hlen, h]
  simp [dropWs]

/-! ### Agent-loop lemmas and the claims about `StatelessAgent.call` -/

/-- A failure dict has the failure shape. -/
theorem failRes_wellFormed (msg : String) : wellFormedResult (failRes msg) :=
  Or.inr ⟨rfl, msg, rfl⟩

/-- The after-loop success dict has the success shape. -/
theorem loopExitResult_wellFormed (toolResponse : Py) :
    wellFormedResult (loopExitResult toolResponse) :=
  Or.inl ⟨rfl, _, rfl⟩

/-- Every outcome the feedback loop produces carries a well-formed result. -/
theorem feedbackLoop_shape (name : String) (llm : Nat → Py) (tool : Nat → Py → Py) :
    ∀ (fuel : Nat) (toolResponse : Py) (q t : Nat) (out : AgentOutcome),
      feedbackLoop name llm tool fuel toolResponse q t = some out →
      wellFormedResult out.result := by
  intro fuel
  induction fuel with
  | zero =>
      intro toolResponse q t out h
      exact absurd h (by simp [feedbackLoop])
  | succ m ih =>
      intro toolResponse q t out h
      simp only [feedbackLoop] at h
      by_cases hr : retryCond toolResponse = true
      · simp only [hr, if_true] at h
        by_cases hw : wrappedTerminal (llm q) = true
        · simp only [hw, if_true, Option.some.injEq] at h
          rw [← h]
          exact failRes_wellFormed _
        · simp only [hw, Bool.false_eq_true, if_false] at h
          exact ih _ _ _ _ h
      · simp only [hr, Bool.false_eq_true, if_false, Option.some.injEq] at h
        rw [← h]
        exact loopExitResult_wellFormed _

/-- C1: with a model client that answers successfully and a tool stub that
always reports a `ServerError`, `StatelessAgent.call` performs exactly one
model query and one tool invocation and exits the feedback loop without a
corrective requery — but, contrary to the spec's `{success: false, error}`,
the line-211 return treats every loop exit as a tool success and yields
`{"success": True, "data": {}}` (the `data` default, since a ServerError
result has no `response` key).  The spec is the evident intent — the loop
guard singles out `server_error` precisely to stop retrying on a failure the
model cannot fix — so this is recorded as a bug in the code. -/
theorem c1_server_error_eval :
    call_with_tool "LeadSender" llmOkStub toolServerErrStub 5 =
      some ⟨.dict [("success", .bool true), ("data", .dict [])], 1, 1⟩ := rfl

/-- C3: whenever the feedback loop is in its corrective state (the previous
tool result was a `ClientError`: a dict whose `success` is `False` and whose
`server_error` defaults to `False`) and the corrective requery returns a
response with `status = "success"` and `format = "wrapped"` carrying raw text,
the call terminates at once with `{success: False}` and an error message that
embeds the raw text after `"tool call failed, generated response: "`, the
query count grows by exactly one, and the tool count does not grow — the tool
is never invoked on the wrapped response. -/
theorem c3_corrective_wrapped_terminal (name : String) (llm : Nat → Py)
    (tool : Nat → Py → Py) (fuel q t : Nat) (toolResponse : Py) (raw : String)
    (hcdict : toolResponse.isDict = true)
    (hcsucc : pyGetD toolResponse "success" (.bool true) = .bool false)
    (hcserr : pyGetD toolResponse "server_error" (.bool false) = .bool false)
    (hrdict : (llm q).isDict = true)
    (hrstatus : pyGetD (llm q) "status" .none = .str "success")
    (hrformat : pyGetD (llm q) "format" .none = .str "wrapped")
    (hrtext : pyGetD (llm q) "response" (.str (pyStr (llm q))) = .str raw) :
    feedbackLoop name llm tool (fuel + 1) toolResponse q t =
      some ⟨failRes (name ++ " says tool call failed, generated response: " ++ raw),
        q + 1, t⟩ := by
  have hr : retryCond toolResponse = true := by
    simp [retryCond, hcsucc, hcserr, isExactlyFalse]
  have hw : wrappedTerminal (llm q) = true := by
    simp [wrappedTerminal, hrdict, hrstatus, hrformat, pyEqStr]
  have htxt : responseText (llm q) = raw := by
    unfold responseText
    rw [if_pos hrdict, hrtext]
    rfl
  simp [feedbackLoop, hr, hw, htxt]

/-- Witness for C3 at a concrete loop state. -/
theorem c3_corrective_wrapped_terminal_witness :
    feedbackLoop "LeadSender3" llmWrappedStub toolIdleStub 1
        (.dict [("success", .bool false), ("error", .str "bad")]) 3 7 =
      some ⟨failRes ("LeadSender3" ++ " says tool call failed, generated response: "
        ++ "free text"), 3 + 1, 7⟩ :=
  c3_corrective_wrapped_terminal "LeadSender3" llmWrappedStub toolIdleStub 0 3 7
    (.dict [("success", .bool false), ("error", .str "bad")]) "free text"
    rfl rfl rfl rfl rfl rfl rfl

/-- C4 counterexample: with a model client whose every response is wrapped and
a tool that rejects its input with a `ClientError`, the call does return
`{success: False}` after exactly two queries — but with exactly ONE tool
invocation, not zero: the first wrapped response is tolerated (`call` never
checks `format` on the first query) and its raw text is passed to the tool at
line 193 before the corrective requery. -/
theorem c4_two_wrapped_counterexample :
    call_with_tool "LeadSender" llmWrappedStub toolClientErrStub 5 =
        some ⟨failRes "LeadSender says tool call failed, generated response: free text", 2, 1⟩
      ∧ (call_with_tool "LeadSender" llmWrappedStub toolClientErrStub 5).map
          AgentOutcome.toolRuns ≠ some 0 := by
  constructor
  · rfl
  · decide

/-- C4 amended: with a tool that rejects the first wrapped response's raw
text as a `ClientError`, a model client whose first two responses are wrapped
makes the call return `{success: False}` after exactly two model queries and
exactly one tool invocation. -/
theorem c4_two_wrapped_amended (name : String) (llm : Nat → Py)
    (tool : Nat → Py → Py) (fuel : Nat) (raw1 raw2 : String) (ce : Py)
    (h0 : llm 0 = wrappedEnvelope raw1) (h1 : llm 1 = wrappedEnvelope raw2)
    (htool : tool 0 (.str raw1) = ce)
    (hdict : ce.isDict = true)
    (hsucc : pyGetD ce "success" (.bool true) = .bool false)
    (hserr : pyGetD ce "server_error" (.bool false) = .bool false) :
    call_with_tool name llm tool (fuel + 1) =
      some ⟨failRes (name ++ " says tool call failed, generated response: " ++ raw2),
        2, 1⟩ := by
  have hr : retryCond ce = true := by
    simp [retryCond, hsucc, hserr, isExactlyFalse]
  have hw : wrappedTerminal (wrappedEnvelope raw2) = true := rfl
  have htxt : responseText (wrappedEnvelope raw2) = raw2 := rfl
  have hd1 : (wrappedEnvelope raw1).isDict = true := rfl
  have hs1 : pyEqStr (pyGetD (wrappedEnvelope raw1) "status" .none) "success" = true := rfl
  have hresp1 : pyGetD (wrappedEnvelope raw1) "response" .none = .str raw1 := rfl
  simp [call_with_tool, h0, hd1, hs1, hresp1, htool, feedbackLoop, hr, h1, hw, htxt]

/-- Witness for C4's amended claim at concrete stubs. -/
theorem c4_two_wrapped_witness :
    call_with_tool "LeadSender2" llmWrappedStub toolClientErrStub 5 =
      some ⟨failRes ("LeadSender2" ++ " says tool call failed, generated response: "
        ++ "free text"), 2, 1⟩ :=
  c4_two_wrapped_amended "LeadSender2" llmWrappedStub toolClientErrStub 4
    "free text" "free text" (.dict [("success", .bool false), ("error", .str "bad input")])
    rfl rfl rfl rfl rfl rfl

/-- C9 counterexample: without a bound tool, `StatelessAgent.call` performs no
status check at all (lines 215-222): a client response reporting
`status = "error"` is still returned as `{"success": True, "data": response}`,
so the claim's "with or without a bound tool" is refuted on the no-tool path. -/
theorem c9_no_tool_counterexample :
    (call_no_tool llmErrStub).result
        = .dict [("success", .bool true),
            ("data", .dict [("status", .str "error"), ("error", .str "transport failure")])]
      ∧ pySubscript (call_no_tool llmErrStub).result "success" = some (.bool true) :=
  ⟨rfl, rfl⟩

/-- C9 amended: with a bound tool, a first response that is a dict whose
status differs from `"success"` fails the whole call immediately: one query,
zero tool invocations, and the failure dict built from the line-188 error. -/
theorem c9_status_error_amended (name : String) (llm : Nat → Py)
    (tool : Nat → Py → Py) (fuel : Nat)
    (hdict : (llm 0).isDict = true)
    (hstatus : pyEqStr (pyGetD (llm 0) "status" .none) "success" = false) :
    call_with_tool name llm tool fuel =
      some ⟨failRes (name ++ " error: "
        ++ pyStr (pyGetD (llm 0) "error" (.str "Unknown error"))), 1, 0⟩ := by
  simp [call_with_tool, hdict, hstatus]

/-- Witness for C9's amended claim at a concrete error-status stub. -/
theorem c9_status_error_witness :
    call_with_tool "LeadFinder" llmErrStub toolIdleStub 3 =
      some ⟨failRes "LeadFinder error: transport failure", 1, 0⟩ :=
  c9_status_error_amended "LeadFinder" llmErrStub toolIdleStub 3 rfl rfl

/-- C10: every value `StatelessAgent.call` returns — on the tool path, for
every client stub, tool stub and fuel, and on the no-tool path — is a dict
with a boolean `success` key, a `data` key when `success` is `True` and a
string `error` key when it is `False`; nothing else escapes the call (the
source wraps the whole body in `except Exception`, modelled by the totality
of `call_with_tool` and `call_no_tool`). -/
theorem c10_result_shape :
    (∀ (name : String) (llm : Nat → Py) (tool : Nat → Py → Py) (fuel : Nat)
        (out : AgentOutcome),
      call_with_tool name llm tool fuel = some out → wellFormedResult out.result) ∧
    (∀ llm : Nat → Py, wellFormedResult (call_no_tool llm).result) := by
  constructor
  · intro name llm tool fuel out h
    simp only [call_with_tool] at h
    by_cases h1 : (llm 0).isDict = true
    · simp only [h1, Bool.not_true, Bool.false_eq_true, if_false] at h
      by_cases h2 : pyEqStr (pyGetD (llm 0) "status" .none) "success" = true
      · simp only [h2, Bool.not_true, Bool.false_eq_true, if_false] at h
        exact feedbackLoop_shape name llm tool _ _ _ _ _ h
      · simp only [Bool.not_eq_true] at h2
        simp only [h2, Bool.not_false, if_true, Option.some.injEq] at h
        rw [← h]
        exact failRes_wellFormed _
    · simp only [Bool.not_eq_true] at h1
      simp only [h1, Bool.not_false, if_true, Option.some.injEq] at h
      rw [← h]
      exact failRes_wellFormed _
  · intro llm
    exact Or.inl ⟨rfl, llm 0, rfl⟩

/-- Witness for C10 at a concrete terminating call. -/
theorem c10_result_shape_witness :
    wellFormedResult (failRes "LeadSender says tool call failed, generated response: free text") :=
  c10_result_shape.1 "LeadSender" llmWrappedStub toolClientErrStub 5
    ⟨failRes "LeadSender says tool call failed, generated response: free text", 2, 1⟩ rfl

/-! ### The normalizer claims -/

/-- C5 counterexample: for the structured value `{"a": "b"}`, normalizing its
serialization yields the value back, but the native case is marked by the
ABSENCE of a `format` key — `format` is not `"native"` as the claim states
(Perplexity's envelope has no `format` key; Gemini returns the bare value). -/
theorem c5_native_counterexample :
    pySubscript (ensure_json_response_perplexity (pyDumps (.dict [("a", .str "b")]))) "format"
        = Option.none
      ∧ ensure_json_response_perplexity (pyDumps (.dict [("a", .str "b")]))
        = .dict [("response", .dict [("a", .str "b")]), ("status", .str "success")] :=
  ⟨rfl, rfl⟩

/-- C5 amended: for every structured value `V`, normalizing `serialize(V)`
recovers exactly `V` — Perplexity's normalizer returns the envelope
`{"response": V, "status": "success"}` (with no `format` key), and Gemini's
returns `V` itself. -/
theorem c5_roundtrip_amended (V : Py) :
    ensure_json_response_perplexity (pyDumps V)
        = .dict [("response", V), ("status", .str "success")]
      ∧ ensure_json_response_gemini (pyDumps V) = V := by
  have h : extractStructured (pyDumps V) = some V := by
    simp only [extractStructured, pyLoads_pyDumps]
  constructor
  · simp [ensure_json_response_perplexity, h]
  · simp [ensure_json_response_gemini, h]

/-- C6 counterexample: on plain prose the Gemini normalizer does not return
the wrapped envelope as a structured value — it returns `json.dumps` of it, a
string. -/
theorem c6_wrapped_counterexample :
    (ensure_json_response_gemini "Sorry, I cannot help with that.").isDict = false
      ∧ ensure_json_response_gemini "Sorry, I cannot help with that."
        = .str (pyDumps (wrappedEnvelope "Sorry, I cannot help with that.")) :=
  ⟨rfl, rfl⟩

/-- C6 amended: for every text from which the recovery cascade extracts no
structured value (no parseable JSON, no fenced block, and any bracket or
brace span present fails to parse — `extractStructured = none` is exactly
that condition), Perplexity's normalizer returns the wrapped envelope
`{"response": text, "status": "success", "format": "wrapped"}` and Gemini's
returns that envelope's `json.dumps` serialization (a string).  Neither
raises: both normalizers are total functions of the text. -/
theorem c6_wrapped_fallback_amended (text : String)
    (h : extractStructured text = Option.none) :
    ensure_json_response_perplexity text = wrappedEnvelope text
      ∧ ensure_json_response_gemini text = .str (pyDumps (wrappedEnvelope text)) := by
  constructor
  · simp [ensure_json_response_perplexity, h]
  · simp [ensure_json_response_gemini, h]

/-- Witness for C6's amended claim on concrete prose. -/
theorem c6_wrapped_fallback_witness :
    ensure_json_response_perplexity "Sorry, I cannot help with that."
        = wrappedEnvelope "Sorry, I cannot help with that."
      ∧ ensure_json_response_gemini "Sorry, I cannot help with that."
        = .str (pyDumps (wrappedEnvelope "Sorry, I cannot help with that.")) :=
  c6_wrapped_fallback_amended "Sorry, I cannot help with that." rfl

/-! ### Pipeline lemmas and the claims about `Workflow.run` -/

/-- When the loop invokes at least one node, the first invoked node's input
is built from the carried value's `data` field. -/
theorem workflowGo_head_input (prompt : String) :
    ∀ (nodes : List (Py → Py)) (acc : Py) (entry : Py × Py),
      (workflowGo prompt nodes acc).2.get? 0 = some entry →
      ∃ d, pySubscript acc "data" = some d ∧ entry.1 = mkNodeInput prompt d := by
  intro nodes acc entry hget
  cases nodes with
  | nil => simp [workflowGo] at hget
  | cons node rest =>
      rcases hdata : pySubscript acc "data" with _ | d
      · rw [workflowGo] at hget
        simp [hdata] at hget
      · refine ⟨d, rfl, ?_⟩
        rw [workflowGo] at hget
        rcases hsucc : pySubscript (node (mkNodeInput prompt d)) "success" with _ | s
        · simp [hdata, hsucc] at hget
          rw [← hget]
        · by_cases hf : isExactlyFalse s = true
          · simp [hdata, hsucc, hf] at hget
            rw [← hget]
          · simp [hdata, hsucc, hf] at hget
            rw [← hget]

/-- Each later invoked node's input is built from the previous invoked node's
output `data`. -/
theorem workflowGo_chain (prompt : String) :
    ∀ (nodes : List (Py → Py)) (acc : Py) (i : Nat) (e1 e2 : Py × Py),
      (workflowGo prompt nodes acc).2.get? i = some e1 →
      (workflowGo prompt nodes acc).2.get? (i + 1) = some e2 →
      ∃ d, pySubscript e1.2 "data" = some d ∧ e2.1 = mkNodeInput prompt d := by
  intro nodes
  induction nodes with
  | nil => intro acc i e1 e2 h1 _; simp [workflowGo] at h1
  | cons node rest ih =>
      intro acc i e1 e2 h1 h2
      rcases hdata : pySubscript acc "data" with _ | d0
      · rw [workflowGo] at h1
        simp [hdata] at h1
      · rcases hsucc : pySubscript (node (mkNodeInput prompt d0)) "success" with _ | s
        · rw [workflowGo] at h2
          simp [hdata, hsucc] at h2
        · by_cases hf : isExactlyFalse s = true
          · rw [workflowGo] at h2
            simp [hdata, hsucc, hf] at h2
          · have htr : (workflowGo prompt (node :: rest) acc).2
                = (mkNodeInput prompt d0, node (mkNodeInput prompt d0))
                  :: (workflowGo prompt rest (node (mkNodeInput prompt d0))).2 := by
              rw [workflowGo]
              simp [hdata, hsucc, hf]
            rw [htr] at h1 h2
            cases i with
            | zero =>
                simp only [List.get?_cons_zero, Option.some.injEq] at h1
                simp only [List.get?_cons_succ] at h2
                obtain ⟨d, hd, hhead⟩ :=
                  workflowGo_head_input prompt rest (node (mkNodeInput prompt d0)) e2 h2
                exact ⟨d, by rw [← h1]; exact hd, hhead⟩
            | succ j =>
                simp only [List.get?_cons_succ] at h1 h2
                exact ih (node (mkNodeInput prompt d0)) j e1 e2 h1 h2

/-- A failing output ends the loop: it is the last entry of the trace and the
loop's result. -/
theorem workflowGo_fail_stops (prompt : String) :
    ∀ (nodes : List (Py → Py)) (acc : Py) (i : Nat) (entry : Py × Py),
      (workflowGo prompt nodes acc).2.get? i = some entry →
      pySubscript entry.2 "success" = some (.bool false) →
      (workflowGo prompt nodes acc).2.length = i + 1 ∧
        (workflowGo prompt nodes acc).1 = entry.2 := by
  intro nodes
  induction nodes with
  | nil => intro acc i entry h1 _; simp [workflowGo] at h1
  | cons node rest ih =>
      intro acc i entry h1 hfail
      rcases hdata : pySubscript acc "data" with _ | d0
      · rw [workflowGo] at h1
        simp [hdata] at h1
      · rcases hsucc : pySubscript (node (mkNodeInput prompt d0)) "success" with _ | s
        · have htr : (workflowGo prompt (node :: rest) acc)
              = (node (mkNodeInput prompt d0),
                [(mkNodeInput prompt d0, node (mkNodeInput prompt d0))]) := by
            rw [workflowGo]
            simp [hdata, hsucc]
          rw [htr] at h1
          cases i with
          | zero =>
              simp only [List.get?_cons_zero, Option.some.injEq] at h1
              rw [← h1] at hfail
              simp only at hfail
              rw [hfail] at hsucc
              simp at hsucc
          | succ j => simp at h1
        · by_cases hf : isExactlyFalse s = true
          · have htr : (workflowGo prompt (node :: rest) acc)
                = (node (mkNodeInput prompt d0),
                  [(mkNodeInput prompt d0, node (mkNodeInput prompt d0))]) := by
              rw [workflowGo]
              simp [hdata, hsucc, hf]
            rw [htr] at h1 ⊢
            cases i with
            | zero =>
                simp only [List.get?_cons_zero, Option.some.injEq] at h1
                rw [← h1]
                exact ⟨rfl, rfl⟩
            | succ j => simp at h1
          · have htr : (workflowGo prompt (node :: rest) acc)
                = ((workflowGo prompt rest (node (mkNodeInput prompt d0))).1,
                  (mkNodeInput prompt d0, node (mkNodeInput prompt d0))
                    :: (workflowGo prompt rest (node (mkNodeInput prompt d0))).2) := by
              rw [workflowGo]
              simp [hdata, hsucc, hf]
            rw [htr] at h1 ⊢
            cases i with
            | zero =>
                simp only [List.get?_cons_zero, Option.some.injEq] at h1
                rw [← h1] at hfail
                simp only at hfail
                rw [hfail] at hsucc
                have hs : s = .bool false := by
                  have := hsucc.symm
                  simpa using this
                rw [hs] at hf
                simp [isExactlyFalse] at hf
            | succ j =>
                simp only [List.get?_cons_succ] at h1
                obtain ⟨hlen, hres⟩ := ih (node (mkNodeInput prompt d0)) j entry h1 hfail
                constructor
                · simp [hlen]
                · simpa using hres

/-- C2: in every `Workflow.run`, a stage whose call returns `success` exactly
`False` is the last stage invoked — no later node in the list is ever called,
whatever it would do — and the pipeline's result is exactly that failing
stage's returned value (the raise at line 24 is caught at line 25 and the
failing `next_node_input` is returned). -/
theorem c2_pipeline_fail_fast (prompt : String) (nodes : List (Py → Py)) (i : Nat)
    (hi : i < (workflowRun prompt nodes).2.length)
    (hfail : pySubscript ((workflowRun prompt nodes).2.get ⟨i, hi⟩).2 "success"
      = some (.bool false)) :
    (workflowRun prompt nodes).2.length = i + 1 ∧
      (workflowRun prompt nodes).1 = ((workflowRun prompt nodes).2.get ⟨i, hi⟩).2 :=
  workflowGo_fail_stops prompt nodes (.dict [("data", .dict [])]) i
    ((workflowRun prompt nodes).2.get ⟨i, hi⟩) (List.get?_eq_get hi) hfail

/-- Witness for C2 on a 3-stage pipeline whose second stage fails: exactly two
stages are invoked and the pipeline result is stage 2's failure value. -/
theorem c2_pipeline_fail_fast_witness :
    (workflowRun "find leads" [stageOkStub, stageFailStub, stageThreeStub]).2.length = 1 + 1 ∧
      (workflowRun "find leads" [stageOkStub, stageFailStub, stageThreeStub]).1 =
        ((workflowRun "find leads" [stageOkStub, stageFailStub, stageThreeStub]).2.get
          ⟨1, by decide⟩).2 :=
  c2_pipeline_fail_fast "find leads" [stageOkStub, stageFailStub, stageThreeStub] 1
    (by decide) (by rfl)

/-- C7: in every `Workflow.run`, stage 1 receives `{"User instructions":
prompt}` alone (the initial carried data `{}` is empty, hence falsy), and
stage N+1 receives a record with the original instruction together with stage
N's output `data` under the `Input` key — the `Input` key omitted exactly
when that data is empty in Python's truthiness sense. -/
theorem c7_data_threading (prompt : String) (nodes : List (Py → Py)) :
    (∀ h0 : 0 < (workflowRun prompt nodes).2.length,
      ((workflowRun prompt nodes).2.get ⟨0, h0⟩).1
        = .dict [("User instructions", .str prompt)]) ∧
    (∀ (i : Nat) (h : i + 1 < (workflowRun prompt nodes).2.length),
      ∃ d, pySubscript ((workflowRun prompt nodes).2.get
          ⟨i, Nat.lt_of_succ_lt h⟩).2 "data" = some d ∧
        ((workflowRun prompt nodes).2.get ⟨i + 1, h⟩).1
          = (if pyTruthy d then
              Py.dict [("User instructions", .str prompt), ("Input", d)]
            else Py.dict [("User instructions", .str prompt)])) := by
  constructor
  · intro h0
    obtain ⟨d, hd, hhead⟩ :=
      workflowGo_head_input prompt nodes (.dict [("data", .dict [])])
        ((workflowRun prompt nodes).2.get ⟨0, h0⟩) (List.get?_eq_get h0)
    have hde : d = .dict [] := by
      have : (some (Py.dict []) : Option Py) = some d := hd
      simpa using this.symm
    subst hde
    simpa [mkNodeInput, pyTruthy] using hhead
  · intro i h
    obtain ⟨d, hd, hnext⟩ :=
      workflowGo_chain prompt nodes (.dict [("data", .dict [])]) i
        ((workflowRun prompt nodes).2.get ⟨i, Nat.lt_of_succ_lt h⟩)
        ((workflowRun prompt nodes).2.get ⟨i + 1, h⟩)
        (List.get?_eq_get (Nat.lt_of_succ_lt h)) (List.get?_eq_get h)
    exact ⟨d, hd, by simpa [mkNodeInput] using hnext⟩

/-- Witness for C7 on the 3-stage pipeline: stage 1's input is the bare
instruction record, and stage 2's input carries stage 1's data under `Input`. -/
theorem c7_data_threading_witness :
    ((workflowRun "find leads" [stageOkStub, stageFailStub, stageThreeStub]).2.get
        ⟨0, by decide⟩).1 = .dict [("User instructions", .str "find leads")] ∧
      ∃ d, pySubscript ((workflowRun "find leads"
          [stageOkStub, stageFailStub, stageThreeStub]).2.get
          ⟨0, Nat.lt_of_succ_lt (by decide)⟩).2 "data" = some d ∧
        ((workflowRun "find leads" [stageOkStub, stageFailStub, stageThreeStub]).2.get
          ⟨0 + 1, by decide⟩).1
          = (if pyTruthy d then
              Py.dict [("User instructions", .str "find leads"), ("Input", d)]
            else Py.dict [("User instructions", .str "find leads")]) :=
  ⟨(c7_data_threading "find leads" [stageOkStub, stageFailStub, stageThreeStub]).1 (by decide),
    (c7_data_threading "find leads" [stageOkStub, stageFailStub, stageThreeStub]).2 0 (by decide)⟩

/-! ### The include-fields renderer claim -/

/-- Pruning leaves a primitive value unchanged. -/
theorem filterPy_primitive (fields : List String) (v : Py) (path : String)
    (h : isPrimitive v = true) : filterPy fields v path = v := by
  cases v <;> first | rfl | simp [isPrimitive] at h

/-- Pruning preserves primitiveness. -/
theorem isPrimitive_filterPy (fields : List String) (v : Py) (path : String) :
    isPrimitive (filterPy fields v path) = isPrimitive v := by
  cases v <;> rfl

/-- Pruning a list preserves the all-primitive test. -/
theorem filterItems_all_primitive (fields : List String) :
    ∀ (xs : List Py) (i : Nat) (path : String),
      (filterItems fields xs i path).all isPrimitive = xs.all isPrimitive
  | [], _, _ => rfl
  | x :: xs, i, path => by
      simp only [filterItems, List.all_cons, isPrimitive_filterPy,
        filterItems_all_primitive fields xs (i + 1) path]

/-- Pruning an all-primitive list is the identity. -/
theorem filterItems_of_primitive (fields : List String) :
    ∀ (xs : List Py) (i : Nat) (path : String), xs.all isPrimitive = true →
      filterItems fields xs i path = xs
  | [], _, _, _ => rfl
  | x :: xs, i, path, h => by
      simp only [List.all_cons, Bool.and_eq_true] at h
      simp only [filterItems, filterPy_primitive fields x _ h.1,
        filterItems_of_primitive fields xs (i + 1) path h.2]

mutual
/-- The filtered rendering equals the plain rendering of the pruned value. -/
theorem renderFilter_val (fields : List String) :
    ∀ (v : Py) (lvl : Nat) (path : String),
      convert_json_to_readable_string (some fields) v lvl path
        = convert_json_to_readable_string Option.none (filterPy fields v path) lvl path
  | .none, _, _ => rfl
  | .bool b, _, _ => rfl
  | .int i, _, _ => rfl
  | .str s, _, _ => rfl
  | .dict kvs, lvl, path => by
      have h := renderFilter_entries fields kvs lvl path
      simp only [convert_json_to_readable_string, filterPy]
      rw [h]
  | .list [], _, _ => rfl
  | .list (x :: xs), lvl, path => by
      by_cases hall : (x :: xs).all isPrimitive = true
      · have hxs := filterItems_of_primitive fields (x :: xs) 1 path hall
        simp only [filterPy]
        rw [hxs]
        simp only [convert_json_to_readable_string, hall, if_true]
      · have hallF : (x :: xs).all isPrimitive = false := by simpa using hall
        have hall2 : (filterItems fields (x :: xs) 1 path).all isPrimitive = false := by
          rw [filterItems_all_primitive]
          exact hallF
        have htop := renderFilter_topItems fields (x :: xs) 1 lvl path
        simp only [filterPy]
        rw [show filterItems fields (x :: xs) 1 path
          = filterPy fields x (path ++ "[" ++ natStr 1 ++ "]")
            :: filterItems fields xs 2 path from rfl] at hall2 htop ⊢
        simp only [convert_json_to_readable_string, hallF, hall2, Bool.false_eq_true,
          if_false]
        rw [htop]
termination_by v _ _ => (sizeOf v, 0)

/-- The entry lines of a filtered dict equal the plain entry lines of the
pruned entries. -/
theorem renderFilter_entries (fields : List String) :
    ∀ (kvs : List (String × Py)) (lvl : Nat) (path : String),
      readableEntryLines (some fields) kvs lvl path
        = readableEntryLines Option.none (filterEntries fields kvs path) lvl path
  | [], _, _ => rfl
  | (key, value) :: rest, lvl, path => by
      have hrest := renderFilter_entries fields rest lvl path
      by_cases hk : shouldInclude fields (fieldPathOf path key) key = true
      · have hblock := renderFilter_block fields value key lvl (fieldPathOf path key)
        simp only [readableEntryLines, filterEntries, hk, if_true]
        rw [hrest, hblock]
      · simp only [readableEntryLines, filterEntries, hk, Bool.false_eq_true, if_false,
          List.nil_append]
        exact hrest
termination_by kvs _ _ => (sizeOf kvs, 0)

/-- The block of a filtered kept entry equals the plain block of the pruned
value. -/
theorem renderFilter_block (fields : List String) :
    ∀ (value : Py) (key : String) (lvl : Nat) (fp : String),
      readableEntryBlock (some fields) key value lvl fp
        = readableEntryBlock Option.none key (filterPy fields value fp) lvl fp
  | .none, _, _, _ => rfl
  | .bool b, _, _, _ => rfl
  | .int i, _, _, _ => rfl
  | .str s, _, _, _ => rfl
  | .dict kvs2, key, lvl, fp => by
      have h := renderFilter_entries fields kvs2 (lvl + 1) fp
      simp only [readableEntryBlock, filterPy]
      rw [h]
  | .list [], _, _, _ => rfl
  | .list (x :: xs), key, lvl, fp => by
      by_cases hall : (x :: xs).all isPrimitive = true
      · have hxs := filterItems_of_primitive fields (x :: xs) 1 fp hall
        simp only [filterPy]
        rw [hxs]
        simp only [readableEntryBlock, hall, if_true]
      · have hallF : (x :: xs).all isPrimitive = false := by simpa using hall
        have hall2 : (filterItems fields (x :: xs) 1 fp).all isPrimitive = false := by
          rw [filterItems_all_primitive]
          exact hallF
        have hitems := renderFilter_nestedItems fields (x :: xs) 1 lvl fp
        simp only [filterPy]
        rw [show filterItems fields (x :: xs) 1 fp
          = filterPy fields x (fp ++ "[" ++ natStr 1 ++ "]")
            :: filterItems fields xs 2 fp from rfl] at hall2 hitems ⊢
        simp only [readableEntryBlock, hallF, hall2, Bool.false_eq_true, if_false]
        rw [hitems]
termination_by value _ _ _ => (sizeOf value, 1)

/-- The nested item lines of a filtered complex list value equal the plain
lines of the pruned items. -/
theorem renderFilter_nestedItems (fields : List String) :
    ∀ (xs : List Py) (i lvl : Nat) (fp : String),
      readableNestedItemLines (some fields) xs i lvl fp
        = readableNestedItemLines Option.none (filterItems fields xs i fp) i lvl fp
  | [], _, _, _ => rfl
  | x :: xs, i, lvl, fp => by
      have hx := renderFilter_val fields x (lvl + 2) (fp ++ "[" ++ natStr i ++ "]")
      have hxs := renderFilter_nestedItems fields xs (i + 1) lvl fp
      simp only [readableNestedItemLines, filterItems]
      rw [hx, hxs]
termination_by xs _ _ _ => (sizeOf xs, 0)

/-- The top-level item lines of a filtered complex list equal the plain lines
of the pruned items. -/
theorem renderFilter_topItems (fields : List String) :
    ∀ (xs : List Py) (i lvl : Nat) (path : String),
      readableTopItemLines (some fields) xs i lvl path
        = readableTopItemLines Option.none (filterItems fields xs i path) i lvl path
  | [], _, _, _ => rfl
  | x :: xs, i, lvl, path => by
      have hx := renderFilter_val fields x (lvl + 1) (path ++ "[" ++ natStr i ++ "]")
      have hxs := renderFilter_topItems fields xs (i + 1) lvl path
      simp only [readableTopItemLines, filterItems]
      rw [hx, hxs]
termination_by xs _ _ _ => (sizeOf xs, 0)
end

/-- C8 counterexample: with `include_fields = ["a"]` and the message
`{"a": {"b": "v"}}`, the rendered text is exactly `"a:\n"` — the descendant
field `b` of the named field `a` is NOT rendered (the second conjunct shows
the unfiltered rendering, which does contain it).  The code's prefix test is
`f.startswith(field_path + ".")`, which selects ancestors of named fields,
not descendants, so the claim's "their descendants" fails. -/
theorem c8_include_fields_counterexample :
    before_call (some ["a"]) (.dict [("a", .dict [("b", .str "v")])]) = .str "a:\n"
      ∧ before_call Option.none (.dict [("a", .dict [("b", .str "v")])])
        = .str "a:\n  b: v" :=
  ⟨rfl, rfl⟩

/-- C8 amended: for every non-empty `include_fields` list and every
structured message, the rendered text is exactly the unfiltered rendering of
the message pruned by the code's actual selection rule: a dict entry at
dotted path `p` with key `k` survives iff some named field equals `p`, or
extends `p` with a dot (ancestors of named fields), or `k` itself is a member
of the list; descendants of a named field are not automatically included
(this theorem holds for every `fields` list, a fortiori the non-empty ones
the claim ranges over). -/
theorem c8_include_fields_amended (fields : List String) (v : Py) (lvl : Nat)
    (path : String) :
    convert_json_to_readable_string (some fields) v lvl path
      = convert_json_to_readable_string Option.none (filterPy fields v path) lvl path :=
  renderFilter_val fields v lvl path

end Kiya
